import Mathlib

/-!
Verification development for the BinaryBrain layer-composition and
sparse-connectivity engine.

The definitions below are a shallow embedding of the C++ sources under
`src/include/bb/`:

* `SparseLayer.h`   — `InitializeNodeInput` and its five connectivity
  strategies (`pointwise`, `depthwise`, `gauss`, `serial`, `random`);
* `Sequential.h`    — the ordered composite container;
* `ReLU.h`          — the activation layer with its forward/backward cache;
* `StochasticLut.h` — the LUT + batch-normalization composite;
* `SparseLutN.h`    — the LUT + batch-norm + activation composite with the
  memory-saving (checkpoint/recompute) mode;
* `BinaryModulation.h` — the real-to-binary / binary-to-real wrapper with
  its train/inference switching.

Machine integers (`index_t`) are modelled as `Nat`; the sizes involved never
overflow in the modelled algorithms.  Code that the repository uses but that
is not part of the given sources (the `ShuffleSet` helper, the shape/index
utilities of `Utility.h`, the standard-library random generators, the
sub-layers of the composites, and the `Variables` aggregate) is modelled from
the specification; each such definition carries a doc comment starting with
`Modelled from the spec:`.
-/

namespace BinaryBrain

/-- Modelled from the spec: a deterministic pseudo-random word generator
standing in for `std::mt19937_64` (library code, not part of the sources).
The claims depend only on the generator being a deterministic function of its
seed, so a 64-bit linear congruential step is used. -/
def lcgNext (s : Nat) : Nat :=
  (6364136223846793005 * s + 1442695040888963407) % 18446744073709551616

/-- Modelled from the spec: the value of the k-th call `mt()` of a
`std::mt19937_64` engine seeded with `seed`. -/
def mtVal (seed k : Nat) : Nat :=
  lcgNext^[k + 1] seed

/-- Modelled from the spec: `GetShapeSize` of `Utility.h` (missing from the
sources) — the flattened node count of a shape, the product of its extents. -/
def shapeSize (shape : List Nat) : Nat :=
  shape.foldr (fun d acc => d * acc) 1

/-- Modelled from the spec: `GetShapeIndex` of `Utility.h` (missing from the
sources) — the row-major flattened index of a coordinate tuple, first axis
fastest (`{x, y, c}` against `{w, h, c}` gives `x + w * (y + h * c)`). -/
def shapeIndex (coords shape : List Nat) : Nat :=
  (coords.zip shape).foldr (fun p acc => acc * p.2 + p.1) 0

/-- Whitespace tokenisation helper, structurally recursive over the character
list (`cur` holds the characters of the token being read, reversed). -/
def splitChars : List Char → List Char → List String
  | [], cur => if cur.isEmpty then [] else [String.mk cur.reverse]
  | c :: cs, cur =>
    if c = ' ' then
      if cur.isEmpty then splitChars cs []
      else String.mk cur.reverse :: splitChars cs []
    else splitChars cs (c :: cur)

/-- Modelled from the spec: `SplitString` of `Utility.h` (missing from the
sources) — whitespace tokenisation of the connection-rule string. -/
def splitString (s : String) : List String :=
  splitChars s.data []

/-- Sequencing of per-node `Option` results: the whole table exists exactly
when every node's list does (a fatal assertion anywhere aborts the whole
`InitializeNodeInput` run). -/
def seqOption {α : Type} : List (Option α) → Option (List α)
  | [] => some []
  | o :: os => o.bind fun x => (seqOption os).map fun xs => x :: xs

/-! ### ShuffleSet

`ShuffleSet.h` is not among the given sources; the spec describes the
`random` strategy as "one global shuffle of all input-node indices; each
output node draws its first N not-yet-assigned-to-it entries".  The model
keeps a `heap` of not-yet-drawn indices and a `reserve` of already-drawn
ones; a draw pops the heap front, and an exhausted heap is refilled by
reshuffling the reserve.  Elements drawn by one `getRandomSet` call join the
reserve only after the call, so one call never repeats an index. -/

/-- Modelled from the spec: one Fisher-Yates extraction step list; `fyGo`
consumes fuel equal to the list length. -/
def fyGo : Nat → List Nat → Nat → List Nat
  | 0, _, _ => []
  | _ + 1, [], _ => []
  | n + 1, x :: xs, r =>
    let l := x :: xs
    let k := r % l.length
    l.getD k 0 :: fyGo n (l.eraseIdx k) (lcgNext r)

/-- Modelled from the spec: a seed-determined shuffle of a list (standing in
for `std::shuffle` driven by the engine state `r`). -/
def fyShuffle (l : List Nat) (r : Nat) : List Nat :=
  fyGo l.length l r

/-- Modelled from the spec: the state of a `ShuffleSet`. -/
structure ShuffleSet where
  heap : List Nat
  reserve : List Nat
  rng : Nat
deriving Repr, DecidableEq

/-- Modelled from the spec: `ShuffleSet ss(size, seed)` — shuffle all indices
`0 .. size-1` into the heap. -/
def ShuffleSet.make (size seed : Nat) : ShuffleSet :=
  ⟨fyShuffle (List.range size) seed, [], lcgNext seed⟩

/-- The pool of indices a `ShuffleSet` still manages (heap then reserve). -/
def ShuffleSet.pool (s : ShuffleSet) : List Nat :=
  s.heap ++ s.reserve

/-- Modelled from the spec: draw one index — pop the heap front, refilling an
exhausted heap by reshuffling the reserve; `none` when the set is empty (the
C++ code would pop from an empty container there). -/
def ShuffleSet.drawOne (s : ShuffleSet) : Option (Nat × ShuffleSet) :=
  match s.heap with
  | x :: rest => some (x, ⟨rest, s.reserve, s.rng⟩)
  | [] =>
    match fyShuffle s.reserve s.rng with
    | [] => none
    | x :: rest => some (x, ⟨rest, [], lcgNext s.rng⟩)

/-- Draw `n` indices in order. -/
def ShuffleSet.drawN : Nat → ShuffleSet → Option (List Nat × ShuffleSet)
  | 0, s => some ([], s)
  | n + 1, s =>
    s.drawOne.bind fun p =>
      (ShuffleSet.drawN n p.2).map fun q => (p.1 :: q.1, q.2)

/-- Modelled from the spec: `GetRandomSet(n)` — draw `n` indices, then move
them to the reserve for later reuse. -/
def ShuffleSet.getRandomSet (n : Nat) (s : ShuffleSet) :
    Option (List Nat × ShuffleSet) :=
  (ShuffleSet.drawN n s).map fun q =>
    (q.1, ⟨q.2.heap, q.2.reserve ++ q.1, q.2.rng⟩)

/-- Thread a `ShuffleSet` through one `GetRandomSet` call per requested
count, collecting the drawn lists (the per-column / per-channel / per-node
draw loops of `InitializeNodeInput`). -/
def ShuffleSet.runs (s : ShuffleSet) : List Nat → Option (List (List Nat))
  | [] => some []
  | n :: ns =>
    (ShuffleSet.getRandomSet n s).bind fun p =>
      (ShuffleSet.runs p.2 ns).map fun cols => p.1 :: cols

/-! ### The connectivity strategies of `SparseLayer::InitializeNodeInput`

A connection table is a `List (List Nat)`: position `n` holds output node
`n`'s ordered input-index list.  `fanIn n` is `GetNodeInputSize(n)`.  The
`pointwise` and `depthwise` loops draw from an independent `ShuffleSet` per
spatial column resp. per channel, each seeded by a successive `mt()` value;
the per-node definitions below recompute the column (channel) draw sequence
and select the node's slice, which is extensionally the same table. -/

/-- The `pointwise` strategy (`SparseLayer.h` lines 61-82) for output node
`n` of the output shape `[w, h, outC]` against input shape `[w, h, inC]`:
the column `(x, y)` shuffles the input channels with its own `ShuffleSet`
and draws `fanIn` channels per output channel `c` in order; the drawn
channel `ch` is wired as input node `{x, y, ch}`. -/
def pointwiseNode (w h inC outC : Nat) (fanIn : Nat → Nat) (seed n : Nat) :
    Option (List Nat) :=
  let x := n % w
  let y := n / w % h
  let c := n / (w * h)
  let ss := ShuffleSet.make inC (mtVal seed (y * w + x))
  (ss.runs ((List.range outC).map fun cc => fanIn (y * w + x + w * h * cc))).map
    fun cols => (cols.getD c []).map fun ch => shapeIndex [x, y, ch] [w, h, inC]

/-- The `pointwise` connection table. -/
def pointwiseConnect (w h inC outC : Nat) (fanIn : Nat → Nat) (seed : Nat) :
    Option (List (List Nat)) :=
  seqOption ((List.range (w * h * outC)).map (pointwiseNode w h inC outC fanIn seed))

/-- The `depthwise` strategy (`SparseLayer.h` lines 84-112) for output node
`n` of output shape `[wo, ho, c]` against input shape `[wi, hi, c]`: the
channel `c` shuffles the flattened input spatial positions with its own
`ShuffleSet` and draws `fanIn` positions per output spatial position in
row-major order; a drawn position `pos` is decoded as
`{pos % wi, pos / wi, c}` and re-encoded against the input shape. -/
def depthwiseNode (wi hi wo ho chan : Nat) (fanIn : Nat → Nat) (seed n : Nat) :
    Option (List Nat) :=
  let c := n / (wo * ho)
  let j := n % (wo * ho)
  let ss := ShuffleSet.make (wi * hi) (mtVal seed c)
  (ss.runs ((List.range (wo * ho)).map fun jj => fanIn (jj + wo * ho * c))).map
    fun rows => (rows.getD j []).map fun pos =>
      shapeIndex [pos % wi, pos / wi, c] [wi, hi, chan]

/-- The `depthwise` connection table. -/
def depthwiseConnect (wi hi chan wo ho : Nat) (fanIn : Nat → Nat) (seed : Nat) :
    Option (List (List Nat)) :=
  seqOption ((List.range (wo * ho * chan)).map (depthwiseNode wi hi wo ho chan fanIn seed))

/-- Modelled from the spec: the `RegurerlizeIndices` snap of `Utility.h`
(missing from the sources) — clamp a sampled coordinate to the nearest valid
index of an axis of extent `d`. -/
def clampPos (p : Int) (d : Nat) : Nat :=
  min p.toNat (d - 1)

/-- One `gauss` sample: clamp the sampled position per axis, then flatten it
to an input node index.  The floating-point normal sampling itself (offset
plus `norm_dist(mt) * sigma`, rounded) is outside the sources and is
abstracted as the integer coordinate vector `v`. -/
def gaussSample (inputShape : List Nat) (v : List Int) : Nat :=
  shapeIndex (List.zipWith clampPos v inputShape) inputShape

/-- The retry loop of the `gauss` strategy (`SparseLayer.h` lines 138-151):
collect `m` distinct input nodes, consuming one sampled position per
attempt and retrying on duplicates; `fuel` bounds the retries (the C++ loop
is unbounded), and `pos` indexes the global sample stream. -/
def gaussNodeGo (inputShape : List Nat) (stream : Nat → List Int) :
    Nat → Nat → Nat → List Nat → Option (List Nat × Nat)
  | _, 0, pos, acc => some (acc.reverse, pos)
  | 0, _ + 1, _, _ => none
  | fuel + 1, m + 1, pos, acc =>
    let idx := gaussSample inputShape (stream pos)
    if idx ∈ acc then gaussNodeGo inputShape stream fuel (m + 1) (pos + 1) acc
    else gaussNodeGo inputShape stream fuel m (pos + 1) (idx :: acc)

/-- The `gauss` strategy over all output nodes in row-major order
(`GetNextIndices` advances the first axis fastest, matching index order),
threading the sample-stream position across nodes. -/
def gaussGo (inputShape : List Nat) (stream : Nat → List Int) (fanIn : Nat → Nat)
    (fuel : Nat) : Nat → Nat → Nat → Option (List (List Nat))
  | 0, _, _ => some []
  | k + 1, node, pos =>
    (gaussNodeGo inputShape stream fuel (fanIn node) pos []).bind fun p =>
      (gaussGo inputShape stream fanIn fuel k (node + 1) p.2).map fun t => p.1 :: t

/-- The `gauss` connection table. -/
def gaussConnect (inputShape outputShape : List Nat) (fanIn : Nat → Nat)
    (stream : Nat → List Int) (fuel : Nat) : Option (List (List Nat)) :=
  gaussGo inputShape stream fanIn fuel (shapeSize outputShape) 0 0

/-- The `serial` strategy (`SparseLayer.h` lines 183-194): a running input
counter assigns `counter % input_node_size` to each (output node, slot) pair
in row-major order. -/
def serialGo (inputSize : Nat) (fanIn : Nat → Nat) : Nat → Nat → Nat → List (List Nat)
  | 0, _, _ => []
  | k + 1, node, counter =>
    ((List.range (fanIn node)).map fun i => (counter + i) % inputSize) ::
      serialGo inputSize fanIn k (node + 1) (counter + fanIn node)

/-- The `serial` connection table. -/
def serialConnect (inputSize outputSize : Nat) (fanIn : Nat → Nat) :
    List (List Nat) :=
  serialGo inputSize fanIn outputSize 0 0

/-- The `random` strategy (`SparseLayer.h` lines 196-208): one `ShuffleSet`
over all input nodes, seeded directly with `seed`; each output node draws its
`fanIn` entries in turn. -/
def randomConnect (inputSize outputSize : Nat) (fanIn : Nat → Nat) (seed : Nat) :
    Option (List (List Nat)) :=
  (ShuffleSet.make inputSize seed).runs ((List.range outputSize).map fanIn)

/-- `SparseLayer::InitializeNodeInput` (lines 51-212) on an already-split
connection string: dispatch on the first token, with the `pointwise` and
`depthwise` shape assertions; an unknown token is the final `BB_ASSERT(0)`,
modelled as `none`.  `stream`/`fuel` feed only the `gauss` branch. -/
def InitNodeInputArgs (argv : List String) (seed : Nat)
    (inputShape outputShape : List Nat) (fanIn : Nat → Nat)
    (stream : Nat → List Int) (fuel : Nat) : Option (List (List Nat)) :=
  match argv with
  | [] => randomConnect (shapeSize inputShape) (shapeSize outputShape) fanIn seed
  | a :: _ =>
    if a = "pointwise" then
      match inputShape, outputShape with
      | [wi, hi, ci], [wo, ho, co] =>
        if wi = wo ∧ hi = ho then pointwiseConnect wi hi ci co fanIn seed else none
      | _, _ => none
    else if a = "depthwise" then
      match inputShape, outputShape with
      | [wi, hi, ci], [wo, ho, co] =>
        if ci = co then depthwiseConnect wi hi ci wo ho fanIn seed else none
      | _, _ => none
    else if a = "gauss" then
      gaussConnect inputShape outputShape fanIn stream fuel
    else if a = "serial" then
      some (serialConnect (shapeSize inputShape) (shapeSize outputShape) fanIn)
    else if a = "random" then
      randomConnect (shapeSize inputShape) (shapeSize outputShape) fanIn seed
    else none

/-- `SparseLayer::InitializeNodeInput` from the raw connection string. -/
def InitNodeInput (seed : Nat) (connection : String)
    (inputShape outputShape : List Nat) (fanIn : Nat → Nat)
    (stream : Nat → List Int) (fuel : Nat) : Option (List (List Nat)) :=
  InitNodeInputArgs (splitString connection) seed inputShape outputShape fanIn stream fuel

/-- The connection-table invariant of the spec: node `i` has exactly
`fanIn i` entries, all mutually distinct, all valid input node indices. -/
def TableOK (fanIn : Nat → Nat) (inputSize : Nat) (table : List (List Nat)) : Prop :=
  ∀ i, i < table.length →
    (table.getD i []).length = fanIn i ∧ (table.getD i []).Nodup ∧
      ∀ e ∈ table.getD i [], e < inputSize

instance (fanIn : Nat → Nat) (inputSize : Nat) (table : List (List Nat)) :
    Decidable (TableOK fanIn inputSize table) :=
  Nat.decidableBallLT _ _

/-! ### Correctness of the ShuffleSet model -/

lemma fyGo_perm : ∀ (n : Nat) (l : List Nat) (r : Nat), l.length = n → (fyGo n l r).Perm l := by
  intro n
  induction n with
  | zero =>
    intro l r hl
    rw [List.length_eq_zero] at hl
    subst hl
    simp [fyGo]
  | succ n ih =>
    intro l r hl
    match l with
    | [] => simp at hl
    | x :: xs =>
      have hk : r % (x :: xs).length < (x :: xs).length :=
        Nat.mod_lt _ (by simp)
      have hlen : ((x :: xs).eraseIdx (r % (x :: xs).length)).length = n := by
        have := List.length_eraseIdx_add_one hk
        omega
      have hrec := ih ((x :: xs).eraseIdx (r % (x :: xs).length)) (lcgNext r) hlen
      have hgetD : (x :: xs).getD (r % (x :: xs).length) 0 = (x :: xs)[r % (x :: xs).length] :=
        List.getD_eq_getElem _ _ hk
      have hperm : ((x :: xs)[r % (x :: xs).length] :: (x :: xs).eraseIdx (r % (x :: xs).length)).Perm (x :: xs) := by
        have h1 := List.perm_cons_erase (List.getElem_mem hk)
        have h2 := List.erase_getElem (l := x :: xs) hk
        exact (List.Perm.cons _ h2).symm.trans h1.symm
      have hstep : fyGo (n + 1) (x :: xs) r
          = (x :: xs).getD (r % (x :: xs).length) 0 ::
              fyGo n ((x :: xs).eraseIdx (r % (x :: xs).length)) (lcgNext r) := rfl
      rw [hstep, hgetD]
      exact (hrec.cons _).trans hperm

lemma fyShuffle_perm (l : List Nat) (r : Nat) : (fyShuffle l r).Perm l :=
  fyGo_perm l.length l r rfl

lemma drawOne_perm {s : ShuffleSet} {x : Nat} {s₁ : ShuffleSet}
    (h : s.drawOne = some (x, s₁)) : (x :: s₁.pool).Perm s.pool := by
  obtain ⟨heap, reserve, rng⟩ := s
  cases heap with
  | cons y rest =>
    simp only [ShuffleSet.drawOne, Option.some.injEq, Prod.mk.injEq] at h
    obtain ⟨hx, hs⟩ := h
    subst hx
    subst hs
    simp [ShuffleSet.pool]
  | nil =>
    simp only [ShuffleSet.drawOne] at h
    cases hs : fyShuffle reserve rng with
    | nil => rw [hs] at h; simp at h
    | cons y rest =>
      rw [hs] at h
      simp only [Option.some.injEq, Prod.mk.injEq] at h
      obtain ⟨hx, hs1⟩ := h
      subst hx
      subst hs1
      have hp : (y :: rest).Perm reserve := hs ▸ fyShuffle_perm reserve rng
      simpa [ShuffleSet.pool] using hp

lemma drawN_spec : ∀ (n : Nat) (s : ShuffleSet) (xs : List Nat) (s₁ : ShuffleSet),
    ShuffleSet.drawN n s = some (xs, s₁) →
    xs.length = n ∧ (xs ++ s₁.pool).Perm s.pool := by
  intro n
  induction n with
  | zero =>
    intro s xs s₁ h
    cases h
    exact ⟨rfl, List.Perm.refl _⟩
  | succ n ih =>
    intro s xs s₁ h
    rw [ShuffleSet.drawN, Option.bind_eq_some] at h
    obtain ⟨⟨x, s₂⟩, h1, h⟩ := h
    rw [Option.map_eq_some'] at h
    obtain ⟨⟨ys, s₃⟩, h2, h3⟩ := h
    obtain ⟨hx, hs⟩ := Prod.mk.injEq .. ▸ h3
    subst hx
    subst hs
    obtain ⟨hlen, hperm⟩ := ih s₂ ys s₃ h2
    refine ⟨by simp [hlen], ?_⟩
    have hd := drawOne_perm h1
    have : ((x :: ys) ++ s₃.pool).Perm (x :: s₂.pool) := by
      simpa using (hperm.cons x)
    exact this.trans hd

lemma getRandomSet_spec {size n : Nat} {s : ShuffleSet} {xs : List Nat} {s₁ : ShuffleSet}
    (hinv : s.pool.Perm (List.range size))
    (h : ShuffleSet.getRandomSet n s = some (xs, s₁)) :
    xs.length = n ∧ xs.Nodup ∧ (∀ e ∈ xs, e < size) ∧ s₁.pool.Perm (List.range size) := by
  rw [ShuffleSet.getRandomSet, Option.map_eq_some'] at h
  obtain ⟨⟨ys, s₂⟩, h1, h3⟩ := h
  obtain ⟨hx, hs⟩ := Prod.mk.injEq .. ▸ h3
  subst hx
  subst hs
  obtain ⟨hlen, hperm⟩ := drawN_spec n s ys s₂ h1
  have hfull : (ys ++ s₂.pool).Perm (List.range size) := hperm.trans hinv
  have hnodup : (ys ++ s₂.pool).Nodup := hfull.nodup_iff.mpr (List.nodup_range size)
  refine ⟨hlen, (List.nodup_append.mp hnodup).1, ?_, ?_⟩
  · intro e he
    have : e ∈ List.range size := hfull.mem_iff.mp (List.mem_append_left _ he)
    exact List.mem_range.mp this
  · show (s₂.heap ++ (s₂.reserve ++ ys)).Perm (List.range size)
    have hc : ((s₂.heap ++ s₂.reserve) ++ ys).Perm (ys ++ (s₂.heap ++ s₂.reserve)) :=
      List.perm_append_comm
    have := hc.trans hfull
    simpa [List.append_assoc] using this

lemma runs_spec (size : Nat) : ∀ (ns : List Nat) (s : ShuffleSet) (cols : List (List Nat)),
    s.pool.Perm (List.range size) → ShuffleSet.runs s ns = some cols →
    cols.length = ns.length ∧ ∀ i, i < ns.length →
      (cols.getD i []).length = ns.getD i 0 ∧ (cols.getD i []).Nodup ∧
        ∀ e ∈ cols.getD i [], e < size := by
  intro ns
  induction ns with
  | nil =>
    intro s cols _ h
    cases h
    exact ⟨rfl, by intro i hi; simp at hi⟩
  | cons n ns ih =>
    intro s cols hinv h
    rw [ShuffleSet.runs, Option.bind_eq_some] at h
    obtain ⟨⟨xs, s₁⟩, h1, h⟩ := h
    rw [Option.map_eq_some'] at h
    obtain ⟨rest, h2, h3⟩ := h
    subst h3
    obtain ⟨hxlen, hxnd, hxmem, hinv₁⟩ := getRandomSet_spec hinv h1
    obtain ⟨hrlen, hrest⟩ := ih s₁ rest hinv₁ h2
    refine ⟨by simp [hrlen], ?_⟩
    intro i hi
    match i with
    | 0 => exact ⟨by simpa using hxlen, by simpa using hxnd, by simpa using hxmem⟩
    | j + 1 =>
      have := hrest j (by simpa using hi)
      simpa using this

lemma make_pool_perm (size seed : Nat) :
    (ShuffleSet.make size seed).pool.Perm (List.range size) := by
  show (fyShuffle (List.range size) seed ++ []).Perm (List.range size)
  simpa using fyShuffle_perm (List.range size) seed

/-! ### Shape-index arithmetic -/

lemma shapeIndex_triple (a b c d e f : Nat) :
    shapeIndex [a, b, c] [d, e, f] = (c * e + b) * d + a := by
  simp [shapeIndex]

lemma shapeSize_triple (d e f : Nat) : shapeSize [d, e, f] = d * (e * (f * 1)) := rfl

lemma flat3_lt {a b c d e f : Nat} (ha : a < d) (hb : b < e) (hc : c < f) :
    (c * e + b) * d + a < d * (e * (f * 1)) := by
  have h1 : c * e + b + 1 ≤ e * f := by
    have hb1 : b + 1 ≤ e := hb
    calc c * e + b + 1 = c * e + (b + 1) := by ring
      _ ≤ c * e + e := Nat.add_le_add_left hb1 _
      _ = (c + 1) * e := by ring
      _ ≤ f * e := Nat.mul_le_mul_right e hc
      _ = e * f := Nat.mul_comm f e
  calc (c * e + b) * d + a < (c * e + b) * d + d := Nat.add_lt_add_left ha _
    _ = (c * e + b + 1) * d := by ring
    _ ≤ (e * f) * d := Nat.mul_le_mul_right d h1
    _ = d * (e * (f * 1)) := by ring

lemma decode3 (n w h : Nat) :
    n / w % h * w + n % w + w * h * (n / (w * h)) = n := by
  have h1 : n % w + w * (n / w) = n := Nat.mod_add_div n w
  have h2 : n / w % h + h * (n / w / h) = n / w := Nat.mod_add_div (n / w) h
  have h3 : n / w / h = n / (w * h) := Nat.div_div_eq_div_mul n w h
  calc n / w % h * w + n % w + w * h * (n / (w * h))
      = n % w + w * (n / w % h + h * (n / w / h)) := by rw [h3]; ring
    _ = n % w + w * (n / w) := by rw [h2]
    _ = n := h1

lemma depthFlat (pos wi c hi : Nat) :
    (c * hi + pos / wi) * wi + pos % wi = c * hi * wi + pos := by
  have h1 : pos % wi + wi * (pos / wi) = pos := Nat.mod_add_div pos wi
  calc (c * hi + pos / wi) * wi + pos % wi
      = c * hi * wi + (pos % wi + wi * (pos / wi)) := by ring
    _ = c * hi * wi + pos := by rw [h1]

lemma depthLt {pos wi hi c chan : Nat} (hp : pos < wi * hi) (hc : c < chan) :
    c * hi * wi + pos < wi * (hi * (chan * 1)) := by
  calc c * hi * wi + pos < c * hi * wi + wi * hi := Nat.add_lt_add_left hp _
    _ = (c + 1) * (hi * wi) := by ring
    _ ≤ chan * (hi * wi) := Nat.mul_le_mul_right _ hc
    _ = wi * (hi * (chan * 1)) := by ring

lemma seqOption_spec : ∀ (l : List (Option (List Nat))) (xs : List (List Nat)),
    seqOption l = some xs → xs.length = l.length ∧
      ∀ i, i < l.length → l.getD i none = some (xs.getD i []) := by
  intro l
  induction l with
  | nil =>
    intro xs h
    cases h
    exact ⟨rfl, fun i hi => absurd hi (by simp)⟩
  | cons o os ih =>
    intro xs h
    rw [seqOption, Option.bind_eq_some] at h
    obtain ⟨x, h1, h⟩ := h
    rw [Option.map_eq_some'] at h
    obtain ⟨ys, h2, h3⟩ := h
    subst h3
    obtain ⟨hlen, hget⟩ := ih ys h2
    refine ⟨by simp [hlen], ?_⟩
    intro i hi
    match i with
    | 0 => simpa using h1
    | j + 1 => simpa using hget j (by simpa using hi)

lemma getD_map_range {β : Type} (d : β) (g : Nat → β) (m i : Nat) (hi : i < m) :
    ((List.range m).map g).getD i d = g i := by
  rw [List.getD_eq_getElem _ _ (by simpa using hi)]
  simp

/-! ### Per-strategy connection-table validity -/

lemma pointwiseNode_spec {w h inC outC : Nat} (fanIn : Nat → Nat) (seed n : Nat)
    (hn : n < w * h * outC) {l : List Nat}
    (hsome : pointwiseNode w h inC outC fanIn seed n = some l) :
    l.length = fanIn n ∧ l.Nodup ∧ ∀ e ∈ l, e < shapeSize [w, h, inC] := by
  have hw : 0 < w := by by_contra hw; simp at hw; subst hw; simp at hn
  have hh : 0 < h := by by_contra hh; simp at hh; subst hh; simp at hn
  have hc : n / (w * h) < outC := by
    apply Nat.div_lt_of_lt_mul
    calc n < w * h * outC := hn
      _ = w * h * outC := rfl
  rw [pointwiseNode, Option.map_eq_some'] at hsome
  obtain ⟨cols, hruns, hl⟩ := hsome
  obtain ⟨hclen, hcols⟩ := runs_spec inC _ _ _ (make_pool_perm inC _) hruns
  have hnslen : ((List.range outC).map fun cc => fanIn (n / w % h * w + n % w + w * h * cc)).length = outC := by simp
  have hspec := hcols (n / (w * h)) (by simpa [hnslen] using hc)
  obtain ⟨hlen0, hnd0, hmem0⟩ := hspec
  have hfan : ((List.range outC).map fun cc => fanIn (n / w % h * w + n % w + w * h * cc)).getD (n / (w * h)) 0 = fanIn n := by
    rw [getD_map_range 0 _ _ _ hc]
    rw [decode3 n w h]
  subst hl
  refine ⟨by rw [List.length_map, hlen0, hfan], ?_, ?_⟩
  · apply List.Nodup.map _ hnd0
    intro c1 c2 hcc
    have hcc2 : shapeIndex [n % w, n / w % h, c1] [w, h, inC]
        = shapeIndex [n % w, n / w % h, c2] [w, h, inC] := hcc
    rw [shapeIndex_triple, shapeIndex_triple] at hcc2
    have h1 : (c1 * h + n / w % h) * w = (c2 * h + n / w % h) * w := by omega
    have h2 : c1 * h + n / w % h = c2 * h + n / w % h :=
      Nat.eq_of_mul_eq_mul_right hw h1
    have h3 : c1 * h = c2 * h := by omega
    exact Nat.eq_of_mul_eq_mul_right hh h3
  · intro e he
    rw [List.mem_map] at he
    obtain ⟨ch, hchmem, hche⟩ := he
    have hch : ch < inC := hmem0 ch hchmem
    rw [← hche, shapeIndex_triple, shapeSize_triple]
    exact flat3_lt (Nat.mod_lt n hw) (Nat.mod_lt _ hh) hch

lemma pointwiseConnect_spec {w h inC outC : Nat} (fanIn : Nat → Nat) (seed : Nat)
    {table : List (List Nat)}
    (hsome : pointwiseConnect w h inC outC fanIn seed = some table) :
    table.length = w * h * outC ∧ TableOK fanIn (shapeSize [w, h, inC]) table := by
  rw [pointwiseConnect] at hsome
  obtain ⟨hlen, hget⟩ := seqOption_spec _ _ hsome
  have hlen2 : table.length = w * h * outC := by simpa using hlen
  refine ⟨hlen2, ?_⟩
  intro i hi
  have hi2 : i < w * h * outC := hlen2 ▸ hi
  have := hget i (by simpa using hi2)
  rw [getD_map_range none _ _ _ hi2] at this
  exact pointwiseNode_spec fanIn seed i hi2 this

lemma depthwiseNode_spec {wi hi wo ho chan : Nat} (fanIn : Nat → Nat) (seed n : Nat)
    (hn : n < wo * ho * chan) {l : List Nat}
    (hsome : depthwiseNode wi hi wo ho chan fanIn seed n = some l) :
    l.length = fanIn n ∧ l.Nodup ∧ ∀ e ∈ l, e < shapeSize [wi, hi, chan] := by
  have hwh : 0 < wo * ho := by
    rcases Nat.eq_zero_or_pos (wo * ho) with h0 | h0
    · rw [h0] at hn; simp at hn
    · exact h0
  have hcc : n / (wo * ho) < chan := Nat.div_lt_of_lt_mul hn
  have hj : n % (wo * ho) < wo * ho := Nat.mod_lt n hwh
  rw [depthwiseNode, Option.map_eq_some'] at hsome
  obtain ⟨rows, hruns, hl⟩ := hsome
  obtain ⟨hrlen, hrows⟩ := runs_spec (wi * hi) _ _ _ (make_pool_perm (wi * hi) _) hruns
  have hspec := hrows (n % (wo * ho)) (by simpa using hj)
  obtain ⟨hlen0, hnd0, hmem0⟩ := hspec
  have hfan : ((List.range (wo * ho)).map fun jj => fanIn (jj + wo * ho * (n / (wo * ho)))).getD (n % (wo * ho)) 0 = fanIn n := by
    rw [getD_map_range 0 _ _ _ hj]
    rw [Nat.mod_add_div n (wo * ho)]
  subst hl
  refine ⟨by rw [List.length_map, hlen0, hfan], ?_, ?_⟩
  · apply List.Nodup.map_on _ hnd0
    intro p1 h1 p2 h2 hpp
    have hpp2 : shapeIndex [p1 % wi, p1 / wi, n / (wo * ho)] [wi, hi, chan]
        = shapeIndex [p2 % wi, p2 / wi, n / (wo * ho)] [wi, hi, chan] := hpp
    rw [shapeIndex_triple, shapeIndex_triple, depthFlat, depthFlat] at hpp2
    omega
  · intro e he
    rw [List.mem_map] at he
    obtain ⟨pos, hpmem, hpe⟩ := he
    have hpos : pos < wi * hi := hmem0 pos hpmem
    rw [← hpe, shapeIndex_triple, depthFlat, shapeSize_triple]
    exact depthLt hpos hcc

lemma depthwiseConnect_spec {wi hi chan wo ho : Nat} (fanIn : Nat → Nat) (seed : Nat)
    {table : List (List Nat)}
    (hsome : depthwiseConnect wi hi chan wo ho fanIn seed = some table) :
    table.length = wo * ho * chan ∧ TableOK fanIn (shapeSize [wi, hi, chan]) table := by
  rw [depthwiseConnect] at hsome
  obtain ⟨hlen, hget⟩ := seqOption_spec _ _ hsome
  have hlen2 : table.length = wo * ho * chan := by simpa using hlen
  refine ⟨hlen2, ?_⟩
  intro i hi'
  have hi2 : i < wo * ho * chan := hlen2 ▸ hi'
  have := hget i (by simpa using hi2)
  rw [getD_map_range none _ _ _ hi2] at this
  exact depthwiseNode_spec fanIn seed i hi2 this

lemma shapeSize_pos {shape : List Nat} (hpos : ∀ d ∈ shape, 0 < d) :
    0 < shapeSize shape := by
  induction shape with
  | nil => exact Nat.one_pos
  | cons d ds ih =>
    have hd : 0 < d := hpos d (by simp)
    have hds : 0 < shapeSize ds := ih fun e he => hpos e (by simp [he])
    exact Nat.mul_pos hd hds

lemma gaussSample_lt : ∀ (v : List Int) (shape : List Nat),
    (∀ d ∈ shape, 0 < d) → gaussSample shape v < shapeSize shape := by
  intro v
  induction v with
  | nil =>
    intro shape hpos
    have h0 : gaussSample shape [] = 0 := by
      cases shape <;> rfl
    rw [h0]
    exact shapeSize_pos hpos
  | cons p ps ih =>
    intro shape hpos
    cases shape with
    | nil => exact Nat.one_pos
    | cons d ds =>
      have hd : 0 < d := hpos d (by simp)
      have hrec : gaussSample ds ps < shapeSize ds :=
        ih ds fun e he => hpos e (by simp [he])
      have hstep : gaussSample (d :: ds) (p :: ps)
          = gaussSample ds ps * d + clampPos p d := rfl
      have hclamp : clampPos p d < d := by
        have : clampPos p d ≤ d - 1 := Nat.min_le_right _ _
        omega
      rw [hstep]
      show gaussSample ds ps * d + clampPos p d < d * shapeSize ds
      calc gaussSample ds ps * d + clampPos p d
          < gaussSample ds ps * d + d := Nat.add_lt_add_left hclamp _
        _ = (gaussSample ds ps + 1) * d := by ring
        _ ≤ shapeSize ds * d := Nat.mul_le_mul_right d hrec
        _ = d * shapeSize ds := Nat.mul_comm _ _

lemma gaussNodeGo_spec {shape : List Nat} {stream : Nat → List Int}
    (hpos : ∀ d ∈ shape, 0 < d) :
    ∀ (fuel m pos : Nat) (acc res : List Nat) (pos₁ : Nat),
    acc.Nodup → (∀ e ∈ acc, e < shapeSize shape) →
    gaussNodeGo shape stream fuel m pos acc = some (res, pos₁) →
    res.length = acc.length + m ∧ res.Nodup ∧ ∀ e ∈ res, e < shapeSize shape := by
  intro fuel
  induction fuel with
  | zero =>
    intro m pos acc res pos₁ hnd hmem h
    match m with
    | 0 =>
      rw [gaussNodeGo] at h
      cases h
      refine ⟨by simp, by simpa using hnd, ?_⟩
      intro e he
      exact hmem e (by simpa using he)
    | _ + 1 => rw [gaussNodeGo] at h; cases h
  | succ fuel ih =>
    intro m pos acc res pos₁ hnd hmem h
    match m with
    | 0 =>
      rw [gaussNodeGo] at h
      cases h
      refine ⟨by simp, by simpa using hnd, ?_⟩
      intro e he
      exact hmem e (by simpa using he)
    | m + 1 =>
      rw [gaussNodeGo] at h
      by_cases hdup : gaussSample shape (stream pos) ∈ acc
      · rw [if_pos hdup] at h
        exact ih (m + 1) (pos + 1) acc res pos₁ hnd hmem h
      · rw [if_neg hdup] at h
        have hnd2 : (gaussSample shape (stream pos) :: acc).Nodup :=
          List.nodup_cons.mpr ⟨hdup, hnd⟩
        have hmem2 : ∀ e ∈ gaussSample shape (stream pos) :: acc, e < shapeSize shape := by
          intro e he
          rcases List.mem_cons.mp he with he | he
          · rw [he]; exact gaussSample_lt (stream pos) shape hpos
          · exact hmem e he
        obtain ⟨hlen, hnd3, hmem3⟩ := ih m (pos + 1) _ res pos₁ hnd2 hmem2 h
        exact ⟨by simp at hlen; omega, hnd3, hmem3⟩

lemma gaussGo_spec {shape : List Nat} {stream : Nat → List Int} {fanIn : Nat → Nat}
    {fuel : Nat} (hpos : ∀ d ∈ shape, 0 < d) :
    ∀ (k node pos : Nat) (table : List (List Nat)),
    gaussGo shape stream fanIn fuel k node pos = some table →
    table.length = k ∧ ∀ i, i < k →
      (table.getD i []).length = fanIn (node + i) ∧ (table.getD i []).Nodup ∧
        ∀ e ∈ table.getD i [], e < shapeSize shape := by
  intro k
  induction k with
  | zero =>
    intro node pos table h
    rw [gaussGo] at h
    cases h
    exact ⟨rfl, fun i hi => absurd hi (by omega)⟩
  | succ k ih =>
    intro node pos table h
    rw [gaussGo, Option.bind_eq_some] at h
    obtain ⟨⟨l, pos₁⟩, h1, h⟩ := h
    rw [Option.map_eq_some'] at h
    obtain ⟨rest, h2, h3⟩ := h
    subst h3
    obtain ⟨hllen, hlnd, hlmem⟩ :=
      gaussNodeGo_spec hpos fuel (fanIn node) pos [] l pos₁ List.nodup_nil (by simp) h1
    obtain ⟨hrlen, hrest⟩ := ih (node + 1) pos₁ rest h2
    refine ⟨by simp [hrlen], ?_⟩
    intro i hi
    match i with
    | 0 =>
      refine ⟨by simpa using hllen, by simpa using hlnd, ?_⟩
      intro e he
      exact hlmem e (by simpa using he)
    | j + 1 =>
      have := hrest j (by omega)
      have harg : node + 1 + j = node + (j + 1) := by omega
      rw [harg] at this
      simpa using this

lemma serialGo_length {S : Nat} {fanIn : Nat → Nat} :
    ∀ (k node counter : Nat), (serialGo S fanIn k node counter).length = k := by
  intro k
  induction k with
  | zero => intro node counter; rfl
  | succ k ih => intro node counter; simp [serialGo, ih]

lemma serialGo_form (S : Nat) (fanIn : Nat → Nat) :
    ∀ (k node counter i : Nat), i < k → ∃ c₀,
    (serialGo S fanIn k node counter).getD i [] =
      (List.range (fanIn (node + i))).map fun j => (c₀ + j) % S := by
  intro k
  induction k with
  | zero => intro node counter i hi; omega
  | succ k ih =>
    intro node counter i hi
    match i with
    | 0 =>
      refine ⟨counter, ?_⟩
      simp [serialGo]
    | j + 1 =>
      obtain ⟨c₀, hc⟩ := ih (node + 1) (counter + fanIn node) j (by omega)
      refine ⟨c₀, ?_⟩
      have harg : node + 1 + j = node + (j + 1) := by omega
      rw [harg] at hc
      simpa [serialGo] using hc

lemma serialGo_const_getD {S m : Nat} :
    ∀ (k node counter i : Nat), i < k →
    (serialGo S (fun _ => m) k node counter).getD i [] =
      (List.range m).map fun j => (counter + i * m + j) % S := by
  intro k
  induction k with
  | zero => intro node counter i hi; omega
  | succ k ih =>
    intro node counter i hi
    match i with
    | 0 =>
      show (List.range m).map (fun j => (counter + j) % S) =
        (List.range m).map fun j => (counter + 0 * m + j) % S
      apply List.map_congr_left
      intro j hj
      congr 1
      omega
    | j + 1 =>
      have hrec := ih (node + 1) (counter + m) j (by omega)
      show (serialGo S (fun _ => m) k (node + 1) (counter + m)).getD j [] =
        (List.range m).map fun jj => (counter + (j + 1) * m + jj) % S
      rw [hrec]
      apply List.map_congr_left
      intro jj hjj
      congr 1
      ring

lemma serialConnect_spec (S outSize : Nat) (fanIn : Nat → Nat)
    (hbound : ∀ node, fanIn node ≤ S) :
    (serialConnect S outSize fanIn).length = outSize ∧
      TableOK fanIn S (serialConnect S outSize fanIn) := by
  refine ⟨serialGo_length outSize 0 0, ?_⟩
  intro i hi
  have hi2 : i < outSize := by
    unfold serialConnect at hi
    rw [serialGo_length] at hi
    exact hi
  obtain ⟨c₀, hc⟩ := serialGo_form S fanIn outSize 0 0 i hi2
  unfold serialConnect
  rw [hc]
  have hfan : fanIn (0 + i) = fanIn i := by rw [Nat.zero_add]
  refine ⟨by simp [hfan], ?_, ?_⟩
  · apply List.Nodup.map_on _ (List.nodup_range _)
    intro j1 hj1 j2 hj2 hjj
    rw [List.mem_range] at hj1 hj2
    have hS : fanIn (0 + i) ≤ S := hbound _
    have hmeq : j1 ≡ j2 [MOD S] := Nat.ModEq.add_left_cancel' c₀ hjj
    have : j1 % S = j2 % S := hmeq
    rw [Nat.mod_eq_of_lt (by omega), Nat.mod_eq_of_lt (by omega)] at this
    exact this
  · intro e he
    rw [List.mem_map] at he
    obtain ⟨j, hjmem, hje⟩ := he
    rw [List.mem_range] at hjmem
    have hS : 0 < S := by
      have := hbound (0 + i)
      omega
    rw [← hje]
    exact Nat.mod_lt _ hS

lemma randomConnect_spec {inputSize outSize : Nat} (fanIn : Nat → Nat) (seed : Nat)
    {table : List (List Nat)}
    (hsome : randomConnect inputSize outSize fanIn seed = some table) :
    table.length = outSize ∧ TableOK fanIn inputSize table := by
  rw [randomConnect] at hsome
  obtain ⟨hlen, hcols⟩ :=
    runs_spec inputSize _ _ _ (make_pool_perm inputSize seed) hsome
  have hlen2 : table.length = outSize := by simpa using hlen
  refine ⟨hlen2, ?_⟩
  intro i hi
  have hi2 : i < outSize := hlen2 ▸ hi
  have := hcols i (by simpa using hi2)
  rw [getD_map_range 0 _ _ _ hi2] at this
  exact this

/-! ### Claims about the connectivity generator -/

/-- C1 counterexample: the claim asserts that within one output node's list
the indices are mutually distinct for every strategy, but the `serial`
strategy with fan-in 2 and a single input node completes and produces the
duplicated list `[0, 0]`. -/
theorem C1_counterexample :
    InitNodeInputArgs ["serial"] 1 [1] [1] (fun _ => 2) (fun _ => []) 0 =
        some [[0, 0]] ∧
      ¬ ([0, 0] : List Nat).Nodup := by
  exact ⟨rfl, by decide⟩

/-- C1 (amended): for every connectivity strategy and every output node,
when `InitializeNodeInput` completes the node's input-index list has exactly
`fanIn` entries, all in `[0, input_node_count)`, and mutually distinct —
provided that, for `serial`, every node's fan-in is at most the input node
count, and, for `gauss`, the input shape has only positive extents. -/
theorem C1_connection_table_validity :
    (∀ (rest : List String) (seed : Nat) (inS outS : List Nat) (fanIn : Nat → Nat)
        (stream : Nat → List Int) (fuel : Nat) (table : List (List Nat)),
      InitNodeInputArgs ("pointwise" :: rest) seed inS outS fanIn stream fuel = some table →
      table.length = shapeSize outS ∧ TableOK fanIn (shapeSize inS) table)
  ∧ (∀ (rest : List String) (seed : Nat) (inS outS : List Nat) (fanIn : Nat → Nat)
        (stream : Nat → List Int) (fuel : Nat) (table : List (List Nat)),
      InitNodeInputArgs ("depthwise" :: rest) seed inS outS fanIn stream fuel = some table →
      table.length = shapeSize outS ∧ TableOK fanIn (shapeSize inS) table)
  ∧ (∀ (rest : List String) (seed : Nat) (inS outS : List Nat) (fanIn : Nat → Nat)
        (stream : Nat → List Int) (fuel : Nat) (table : List (List Nat)),
      (∀ d ∈ inS, 0 < d) →
      InitNodeInputArgs ("gauss" :: rest) seed inS outS fanIn stream fuel = some table →
      table.length = shapeSize outS ∧ TableOK fanIn (shapeSize inS) table)
  ∧ (∀ (rest : List String) (seed : Nat) (inS outS : List Nat) (fanIn : Nat → Nat)
        (stream : Nat → List Int) (fuel : Nat) (table : List (List Nat)),
      (∀ node, fanIn node ≤ shapeSize inS) →
      InitNodeInputArgs ("serial" :: rest) seed inS outS fanIn stream fuel = some table →
      table.length = shapeSize outS ∧ TableOK fanIn (shapeSize inS) table)
  ∧ (∀ (rest : List String) (seed : Nat) (inS outS : List Nat) (fanIn : Nat → Nat)
        (stream : Nat → List Int) (fuel : Nat) (table : List (List Nat)),
      InitNodeInputArgs ("random" :: rest) seed inS outS fanIn stream fuel = some table →
      table.length = shapeSize outS ∧ TableOK fanIn (shapeSize inS) table) := by
  refine ⟨?_, ?_, ?_, ?_, ?_⟩
  · intro rest seed inS outS fanIn stream fuel table h
    match inS, outS with
    | [wi, hi, ci], [wo, ho, co] =>
      have h2 : (if wi = wo ∧ hi = ho then pointwiseConnect wi hi ci co fanIn seed
          else none) = some table := h
      by_cases hcond : wi = wo ∧ hi = ho
      · rw [if_pos hcond] at h2
        obtain ⟨hwo, hho⟩ := hcond
        obtain ⟨hlen, hok⟩ := pointwiseConnect_spec fanIn seed h2
        subst hwo
        subst hho
        refine ⟨?_, hok⟩
        rw [hlen, shapeSize_triple]
        ring
      · rw [if_neg hcond] at h2
        cases h2
    | [], _ => cases h
    | [_], _ => cases h
    | [_, _], _ => cases h
    | _ :: _ :: _ :: _ :: _, _ => cases h
    | [_, _, _], [] => cases h
    | [_, _, _], [_] => cases h
    | [_, _, _], [_, _] => cases h
    | [_, _, _], _ :: _ :: _ :: _ :: _ => cases h
  · intro rest seed inS outS fanIn stream fuel table h
    match inS, outS with
    | [wi, hi, ci], [wo, ho, co] =>
      have h2 : (if ci = co then depthwiseConnect wi hi ci wo ho fanIn seed
          else none) = some table := h
      by_cases hcond : ci = co
      · rw [if_pos hcond] at h2
        subst hcond
        obtain ⟨hlen, hok⟩ := depthwiseConnect_spec fanIn seed h2
        refine ⟨?_, hok⟩
        rw [hlen, shapeSize_triple]
        ring
      · rw [if_neg hcond] at h2
        cases h2
    | [], _ => cases h
    | [_], _ => cases h
    | [_, _], _ => cases h
    | _ :: _ :: _ :: _ :: _, _ => cases h
    | [_, _, _], [] => cases h
    | [_, _, _], [_] => cases h
    | [_, _, _], [_, _] => cases h
    | [_, _, _], _ :: _ :: _ :: _ :: _ => cases h
  · intro rest seed inS outS fanIn stream fuel table hpos h
    have h2 : gaussConnect inS outS fanIn stream fuel = some table := h
    rw [gaussConnect] at h2
    obtain ⟨hlen, hok⟩ := gaussGo_spec hpos (shapeSize outS) 0 0 table h2
    refine ⟨hlen, ?_⟩
    intro i hi
    have := hok i (hlen ▸ hi)
    simpa using this
  · intro rest seed inS outS fanIn stream fuel table hbound h
    have h2 : some (serialConnect (shapeSize inS) (shapeSize outS) fanIn) = some table := h
    cases h2
    obtain ⟨hlen, hok⟩ := serialConnect_spec (shapeSize inS) (shapeSize outS)
      fanIn hbound
    exact ⟨hlen, hok⟩
  · intro rest seed inS outS fanIn stream fuel table h
    have h2 : randomConnect (shapeSize inS) (shapeSize outS) fanIn seed = some table := h
    exact randomConnect_spec fanIn seed h2

/-- C1 witness: the amended theorem applied at small concrete configurations
of each strategy. -/
theorem C1_witness :
    (([[1, 2], [0, 2]] : List (List Nat)).length = shapeSize [1, 1, 2] ∧
      TableOK (fun _ => 2) (shapeSize [1, 1, 3]) [[1, 2], [0, 2]]) ∧
    (([[0, 3], [7, 6]] : List (List Nat)).length = shapeSize [1, 1, 2] ∧
      TableOK (fun _ => 2) (shapeSize [2, 2, 2]) [[0, 3], [7, 6]]) ∧
    (([[0, 1], [2, 3]] : List (List Nat)).length = shapeSize [2] ∧
      TableOK (fun _ => 2) (shapeSize [4]) [[0, 1], [2, 3]]) ∧
    (([[1, 3], [5, 4], [2, 0]] : List (List Nat)).length = shapeSize [3] ∧
      TableOK (fun _ => 2) (shapeSize [6]) [[1, 3], [5, 4], [2, 0]]) := by
  refine ⟨?_, ?_, ?_, ?_⟩
  · exact C1_connection_table_validity.1 [] 1 [1, 1, 3] [1, 1, 2] (fun _ => 2)
      (fun _ => []) 0 [[1, 2], [0, 2]] (by decide)
  · exact (C1_connection_table_validity.2.1 [] 1 [2, 2, 2] [1, 1, 2] (fun _ => 2)
      (fun _ => []) 0 [[0, 3], [7, 6]] (by decide))
  · exact (C1_connection_table_validity.2.2.2.1 [] 1 [4] [2] (fun _ => 2)
      (fun _ => []) 0 [[0, 1], [2, 3]] (fun _ => (by decide : (2 : Nat) ≤ shapeSize [4]))
      (by decide))
  · exact (C1_connection_table_validity.2.2.2.2 [] 1 [6] [3] (fun _ => 2)
      (fun _ => []) 0 [[1, 3], [5, 4], [2, 0]] (by decide))

/-- C7: the `serial` strategy is fully deterministic — entry `i` of output
node `k`, with constant fan-in `m`, is `(k * m + i) % input_node_count`; in
particular, for fan-in 2, input shape `[4]`, output shape `[2]` and any seed,
the table is exactly `{node0: [0, 1], node1: [2, 3]}`. -/
theorem C7_serial_strategy :
    (∀ (S outSize m k i : Nat), k < outSize → i < m →
      (((serialConnect S outSize (fun _ => m)).getD k []).getD i 0) = (k * m + i) % S)
  ∧ (∀ (seed : Nat) (stream : Nat → List Int) (fuel : Nat),
      InitNodeInput seed "serial" [4] [2] (fun _ => 2) stream fuel =
        some [[0, 1], [2, 3]]) := by
  constructor
  · intro S outSize m k i hk hi
    unfold serialConnect
    rw [serialGo_const_getD outSize 0 0 k hk]
    rw [getD_map_range 0 _ _ _ hi]
    congr 1
    omega
  · intro seed stream fuel
    have hs : splitString "serial" = ["serial"] := by decide
    show InitNodeInputArgs (splitString "serial") seed [4] [2] (fun _ => 2) stream fuel =
      some [[0, 1], [2, 3]]
    rw [hs]
    rfl

/-- C7 witness: the general serial formula at a concrete entry. -/
theorem C7_witness :
    ((serialConnect 4 2 (fun _ => 2)).getD 1 []).getD 0 0 = (1 * 2 + 0) % 4 :=
  C7_serial_strategy.1 4 2 2 1 0 (by decide) (by decide)

/-- C8: the `random` generator is a deterministic function of the shapes, the
fan-in map and the seed: two runs with the same seed produce identical
connection tables, independently of the gauss sampling parameters that other
strategies consume. -/
theorem C8_random_deterministic :
    ∀ (seed : Nat) (inS outS : List Nat) (fanIn : Nat → Nat)
      (stream₁ : Nat → List Int) (fuel₁ : Nat) (stream₂ : Nat → List Int) (fuel₂ : Nat),
      InitNodeInput seed "random" inS outS fanIn stream₁ fuel₁ =
        InitNodeInput seed "random" inS outS fanIn stream₂ fuel₂ ∧
      InitNodeInput seed "random" inS outS fanIn stream₁ fuel₁ =
        randomConnect (shapeSize inS) (shapeSize outS) fanIn seed := by
  intro seed inS outS fanIn stream₁ fuel₁ stream₂ fuel₂
  have hs : splitString "random" = ["random"] := by decide
  constructor
  · show InitNodeInputArgs (splitString "random") seed inS outS fanIn stream₁ fuel₁ =
      InitNodeInputArgs (splitString "random") seed inS outS fanIn stream₂ fuel₂
    rw [hs]
    rfl
  · show InitNodeInputArgs (splitString "random") seed inS outS fanIn stream₁ fuel₁ =
      randomConnect (shapeSize inS) (shapeSize outS) fanIn seed
    rw [hs]
    rfl

/-- C9: the empty connection string selects the `random` strategy; an
unrecognized first token fails fatally; `pointwise` and `depthwise` fail
fatally when the shapes violate their constraints (non-3-D, mismatched x/y
for `pointwise`, mismatched channel count for `depthwise`). -/
theorem C9_strategy_errors :
    (∀ (seed : Nat) (inS outS : List Nat) (fanIn : Nat → Nat)
        (stream : Nat → List Int) (fuel : Nat),
      InitNodeInput seed "" inS outS fanIn stream fuel =
        randomConnect (shapeSize inS) (shapeSize outS) fanIn seed)
  ∧ (∀ (a : String) (rest : List String) (seed : Nat) (inS outS : List Nat)
        (fanIn : Nat → Nat) (stream : Nat → List Int) (fuel : Nat),
      a ∉ ["pointwise", "depthwise", "gauss", "serial", "random"] →
      InitNodeInputArgs (a :: rest) seed inS outS fanIn stream fuel = none)
  ∧ (∀ (rest : List String) (seed : Nat) (inS outS : List Nat) (fanIn : Nat → Nat)
        (stream : Nat → List Int) (fuel : Nat),
      (¬ ∃ wi hi ci co, inS = [wi, hi, ci] ∧ outS = [wi, hi, co]) →
      InitNodeInputArgs ("pointwise" :: rest) seed inS outS fanIn stream fuel = none)
  ∧ (∀ (rest : List String) (seed : Nat) (inS outS : List Nat) (fanIn : Nat → Nat)
        (stream : Nat → List Int) (fuel : Nat),
      (¬ ∃ wi hi wo ho c, inS = [wi, hi, c] ∧ outS = [wo, ho, c]) →
      InitNodeInputArgs ("depthwise" :: rest) seed inS outS fanIn stream fuel = none) := by
  refine ⟨?_, ?_, ?_, ?_⟩
  · intro seed inS outS fanIn stream fuel
    have hs : splitString "" = [] := by decide
    show InitNodeInputArgs (splitString "") seed inS outS fanIn stream fuel =
      randomConnect (shapeSize inS) (shapeSize outS) fanIn seed
    rw [hs]
    rfl
  · intro a rest seed inS outS fanIn stream fuel hmem
    have h1 : ¬ a = "pointwise" := fun hh => hmem (by rw [hh]; simp)
    have h2 : ¬ a = "depthwise" := fun hh => hmem (by rw [hh]; simp)
    have h3 : ¬ a = "gauss" := fun hh => hmem (by rw [hh]; simp)
    have h4 : ¬ a = "serial" := fun hh => hmem (by rw [hh]; simp)
    have h5 : ¬ a = "random" := fun hh => hmem (by rw [hh]; simp)
    show (if a = "pointwise" then _ else if a = "depthwise" then _
      else if a = "gauss" then _ else if a = "serial" then _
      else if a = "random" then _ else none) = none
    rw [if_neg h1, if_neg h2, if_neg h3, if_neg h4, if_neg h5]
  · intro rest seed inS outS fanIn stream fuel hshape
    match inS, outS with
    | [wi, hi, ci], [wo, ho, co] =>
      show (if wi = wo ∧ hi = ho then pointwiseConnect wi hi ci co fanIn seed
        else none) = none
      have hcond : ¬ (wi = wo ∧ hi = ho) := by
        rintro ⟨hwo, hho⟩
        subst hwo
        subst hho
        exact hshape ⟨wi, hi, ci, co, rfl, rfl⟩
      rw [if_neg hcond]
    | [], _ => rfl
    | [_], _ => rfl
    | [_, _], _ => rfl
    | _ :: _ :: _ :: _ :: _, _ => rfl
    | [_, _, _], [] => rfl
    | [_, _, _], [_] => rfl
    | [_, _, _], [_, _] => rfl
    | [_, _, _], _ :: _ :: _ :: _ :: _ => rfl
  · intro rest seed inS outS fanIn stream fuel hshape
    match inS, outS with
    | [wi, hi, ci], [wo, ho, co] =>
      show (if ci = co then depthwiseConnect wi hi ci wo ho fanIn seed
        else none) = none
      have hcond : ¬ ci = co := by
        intro hcc
        subst hcc
        exact hshape ⟨wi, hi, wo, ho, ci, rfl, rfl⟩
      rw [if_neg hcond]
    | [], _ => rfl
    | [_], _ => rfl
    | [_, _], _ => rfl
    | _ :: _ :: _ :: _ :: _, _ => rfl
    | [_, _, _], [] => rfl
    | [_, _, _], [_] => rfl
    | [_, _, _], [_, _] => rfl
    | [_, _, _], _ :: _ :: _ :: _ :: _ => rfl

/-- C9 witness: an unknown strategy token, a mismatched `pointwise` shape and
a mismatched `depthwise` channel count each yield the fatal result. -/
theorem C9_witness :
    InitNodeInputArgs ["foo"] 1 [4] [2] (fun _ => 2) (fun _ => []) 0 = none ∧
    InitNodeInputArgs ["pointwise"] 1 [2, 2, 2] [3, 2, 2] (fun _ => 2) (fun _ => []) 0 = none ∧
    InitNodeInputArgs ["depthwise"] 1 [2, 2, 2] [2, 2, 3] (fun _ => 2) (fun _ => []) 0 = none := by
  refine ⟨?_, ?_, ?_⟩
  · exact C9_strategy_errors.2.1 "foo" [] 1 [4] [2] (fun _ => 2) (fun _ => []) 0
      (by decide)
  · refine C9_strategy_errors.2.2.1 [] 1 [2, 2, 2] [3, 2, 2] (fun _ => 2) (fun _ => []) 0 ?_
    rintro ⟨wi, hi, ci, co, h1, h2⟩
    simp at h1 h2
    omega
  · refine C9_strategy_errors.2.2.2 [] 1 [2, 2, 2] [2, 2, 3] (fun _ => 2) (fun _ => []) 0 ?_
    rintro ⟨wi, hi, wo, ho, c, h1, h2⟩
    simp at h1 h2
    omega

/-! ### Sequential (`Sequential.h`)

`Sequential` holds heterogeneous children behind the abstract `Layer`
interface; a child is modelled by the slice of that interface the composite
calls: a state-updating forward map, a state-updating backward map, and the
parameter/gradient collections.  `Variables` (not among the sources) is
modelled from the spec as an ordered flattenable aggregate — a list — whose
`PushBack` appends. -/

/-- A child layer as `Sequential` sees it. -/
inductive PLayer (β π : Type) : Type where
  | mk : (β → Bool → PLayer β π × β) → (β → PLayer β π × β) →
      List π → List π → PLayer β π

/-- The child's `Forward` (state-updating). -/
def PLayer.fwd {β π : Type} : PLayer β π → β → Bool → PLayer β π × β
  | mk f _ _ _ => f

/-- The child's `Backward` (state-updating). -/
def PLayer.bwd {β π : Type} : PLayer β π → β → PLayer β π × β
  | mk _ b _ _ => b

/-- The child's `GetParameters`. -/
def PLayer.params {β π : Type} : PLayer β π → List π
  | mk _ _ p _ => p

/-- The child's `GetGradients`. -/
def PLayer.grads {β π : Type} : PLayer β π → List π
  | mk _ _ _ g => g

/-- `Sequential::Forward` (`Sequential.h` lines 116-122): thread the buffer
through the children in order. -/
def seqForward {β π : Type} : List (PLayer β π) → β → Bool → List (PLayer β π) × β
  | [], x, _ => ([], x)
  | l :: ls, x, train =>
    ((l.fwd x train).1 :: (seqForward ls (l.fwd x train).2 train).1,
      (seqForward ls (l.fwd x train).2 train).2)

/-- `Sequential::Backward` (`Sequential.h` lines 130-136): thread the
gradient through the children in reverse order. -/
def seqBackward {β π : Type} : List (PLayer β π) → β → List (PLayer β π) × β
  | [], dy => ([], dy)
  | l :: ls, dy =>
    ((l.bwd (seqBackward ls dy).2).1 :: (seqBackward ls dy).1,
      (l.bwd (seqBackward ls dy).2).2)

/-- `Sequential::GetParameters` (`Sequential.h` lines 69-76): `PushBack`
each child's parameters onto an initially empty aggregate, in order. -/
def seqGetParameters {β π : Type} (ls : List (PLayer β π)) : List π :=
  ls.foldl (fun acc l => acc ++ l.params) []

/-- `Sequential::GetGradients` (`Sequential.h` lines 84-91). -/
def seqGetGradients {β π : Type} (ls : List (PLayer β π)) : List π :=
  ls.foldl (fun acc l => acc ++ l.grads) []

lemma seqGetParameters_fold {β π : Type} (ls : List (PLayer β π)) :
    ∀ acc : List π, ls.foldl (fun acc l => acc ++ l.params) acc =
      acc ++ (ls.map PLayer.params).flatten := by
  induction ls with
  | nil => intro acc; simp
  | cons l ls ih => intro acc; simp [ih]

lemma seqGetGradients_fold {β π : Type} (ls : List (PLayer β π)) :
    ∀ acc : List π, ls.foldl (fun acc l => acc ++ l.grads) acc =
      acc ++ (ls.map PLayer.grads).flatten := by
  induction ls with
  | nil => intro acc; simp
  | cons l ls ih => intro acc; simp [ih]

/-- C4: `Sequential` composes: Forward threads the buffer through the
children in order (appending a child applies it last, to the previous
composite output); Backward threads the gradient through in reverse order
(an appended child consumes the incoming gradient first); parameter and
gradient collection is the in-order concatenation of the children's
collections. -/
theorem C4_sequential_composition {β π : Type} :
    (∀ (ls : List (PLayer β π)) (l : PLayer β π) (x : β) (train : Bool),
      seqForward (ls ++ [l]) x train =
        ((seqForward ls x train).1 ++ [(l.fwd (seqForward ls x train).2 train).1],
          (l.fwd (seqForward ls x train).2 train).2))
  ∧ (∀ (ls : List (PLayer β π)) (l : PLayer β π) (dy : β),
      seqBackward (ls ++ [l]) dy =
        ((seqBackward ls (l.bwd dy).2).1 ++ [(l.bwd dy).1],
          (seqBackward ls (l.bwd dy).2).2))
  ∧ (∀ ls : List (PLayer β π), seqGetParameters ls = (ls.map PLayer.params).flatten)
  ∧ (∀ ls : List (PLayer β π), seqGetGradients ls = (ls.map PLayer.grads).flatten) := by
  refine ⟨?_, ?_, ?_, ?_⟩
  · intro ls
    induction ls with
    | nil => intro l x train; rfl
    | cons hd tl ih =>
      intro l x train
      simp only [List.cons_append, seqForward, List.append_eq]
      rw [ih]
  · intro ls
    induction ls with
    | nil => intro l dy; rfl
    | cons hd tl ih =>
      intro l dy
      simp only [List.cons_append, seqBackward, List.append_eq]
      rw [ih]
  · intro ls
    exact (seqGetParameters_fold ls []).trans (by simp)
  · intro ls
    exact (seqGetGradients_fold ls []).trans (by simp)

/-! ### ReLU (`ReLU.h`)

The buffer is modelled elementwise (one integer per node/frame position);
the float arithmetic of the AVX/CUDA kernels is only comparison against
zero, selection and `max`, which the integer model reproduces exactly.  Only
the non-binary mode is modelled: the claim is about the forward/backward
cache protocol of lines 106-109 and 189-192. -/

/-- The cache state of a `ReLU` layer: `m_x_buf` and `m_y_buf`
(`FrameBuffer()` — an empty buffer — is `none`). -/
structure ReLUState where
  x_buf : Option (List Int)
  y_buf : Option (List Int)
deriving Repr, DecidableEq

/-- `ReLU::Forward` (`ReLU.h` lines 93-168), non-binary mode: compute
`max(x, 0)` elementwise; when `train` is set, cache the input and output
buffers for `Backward`. -/
def reluForward (s : ReLUState) (x : List Int) (train : Bool) :
    ReLUState × List Int :=
  let y := x.map fun v => max v 0
  (if train then ⟨some x, some y⟩ else s, y)

/-- `ReLU::Backward` (`ReLU.h` lines 177-262): pass the incoming gradient
where the cached output is positive, zero elsewhere, consuming (clearing)
the cache. -/
def reluBackward (s : ReLUState) (dy : List Int) : ReLUState × List Int :=
  ((⟨none, none⟩ : ReLUState),
    ((s.y_buf.getD []).zip dy).map fun p => if 0 < p.1 then p.2 else 0)

/-- C5 counterexample: the claim says a second Forward in any mode
invalidates the previous cache, but an inference-mode Forward leaves the
cache untouched: after `Forward [-1] train` and `Forward [1] infer`, the
Backward of `[5]` is `[0]` — computed from the first call's cache — while a
Backward consuming the second call's data would give `[5]`. -/
theorem C5_counterexample :
    (reluBackward (reluForward (reluForward ⟨none, none⟩ [-1] true).1 [1] false).1 [5]).2
        = [0] ∧
      (reluBackward (reluForward ⟨none, none⟩ [1] true).1 [5]).2 = [5] ∧
      ([0] : List Int) ≠ [5] := by
  exact ⟨rfl, rfl, by decide⟩

/-- C5 (amended): a training-mode Forward invalidates the previous cache —
a subsequent Backward depends only on the most recent training-mode
Forward's input — while an inference-mode Forward leaves the existing cache
untouched; Backward masks the gradient by the cached output. -/
theorem C5_forward_cache_invalidation :
    (∀ (s₁ s₂ : ReLUState) (x₁ x₂ dy : List Int) (t₁ : Bool),
      (reluBackward (reluForward (reluForward s₁ x₁ t₁).1 x₂ true).1 dy).2 =
        (reluBackward (reluForward s₂ x₂ true).1 dy).2)
  ∧ (∀ (s : ReLUState) (x : List Int), (reluForward s x false).1 = s)
  ∧ (∀ (s : ReLUState) (x dy : List Int),
      (reluBackward (reluForward s x true).1 dy).2 =
        ((x.map fun v => max v 0).zip dy).map fun p => if 0 < p.1 then p.2 else 0) := by
  refine ⟨?_, ?_, ?_⟩
  · intro s₁ s₂ x₁ x₂ dy t₁
    rfl
  · intro s x
    rfl
  · intro s x dy
    rfl

/-! ### StochasticLut (`StochasticLut.h`)

The composite holds a LUT sub-layer and a batch-normalization sub-layer.
Modelled from the spec: the sub-layers themselves (`StochasticLut2/4/6.h`,
`BatchNormalization.h`) are not among the sources; they are abstracted by
their forward/backward maps, per-node maps, parameter/gradient collections,
serialized payloads and stream-consuming loaders. -/

/-- The state of a `StochasticLut` composite, with its sub-layers abstract. -/
structure StochasticLutM (β δ ν π : Type) where
  bn_enable : Bool
  lutForward : β → Bool → β
  bnForward : β → Bool → β
  lutBackward : β → β
  bnBackward : β → β
  lutForwardNode : δ → δ
  bnForwardNode : δ → δ
  lutParams : List π
  bnParams : List π
  lutGrads : List π
  bnGrads : List π
  lutSave : List ν
  bnSave : List ν
  lutLoad : List ν → List ν
  bnLoad : List ν → List ν

/-- Modelled from the spec: `EvalBool` of `Utility.h` (missing from the
sources) — parse a boolean command argument. -/
def evalBool (s : String) : Bool :=
  s = "1" || s = "true"

/-- `StochasticLut::CommandProc` (`StochasticLut.h` lines 47-54): the
`batch_normalization` command sets the `m_bn_enable` flag. -/
def StochasticLutM.commandProc {β δ ν π : Type} (m : StochasticLutM β δ ν π)
    (args : List String) : StochasticLutM β δ ν π :=
  if args.length = 2 ∧ args.headD "" = "batch_normalization" then
    {m with bn_enable := evalBool (args.getD 1 "")}
  else m

/-- `StochasticLut::Forward` (lines 229-236): LUT, then batch-norm only when
enabled. -/
def StochasticLutM.forward {β δ ν π : Type} (m : StochasticLutM β δ ν π)
    (x : β) (train : Bool) : β :=
  let x1 := m.lutForward x train
  if m.bn_enable then m.bnForward x1 train else x1

/-- `StochasticLut::Backward` (lines 244-251): batch-norm (when enabled),
then LUT. -/
def StochasticLutM.backward {β δ ν π : Type} (m : StochasticLutM β δ ν π)
    (dy : β) : β :=
  m.lutBackward (if m.bn_enable then m.bnBackward dy else dy)

/-- `StochasticLut::ForwardNode` (lines 208-220). -/
def StochasticLutM.forwardNode {β δ ν π : Type} (m : StochasticLutM β δ ν π)
    (v : δ) : δ :=
  let v1 := m.lutForwardNode v
  if m.bn_enable then m.bnForwardNode v1 else v1

/-- `StochasticLut::GetParameters` (lines 132-140): LUT always, batch-norm
only when enabled. -/
def StochasticLutM.getParameters {β δ ν π : Type} (m : StochasticLutM β δ ν π) :
    List π :=
  m.lutParams ++ if m.bn_enable then m.bnParams else []

/-- `StochasticLut::GetGradients` (lines 148-156). -/
def StochasticLutM.getGradients {β δ ν π : Type} (m : StochasticLutM β δ ν π) :
    List π :=
  m.lutGrads ++ if m.bn_enable then m.bnGrads else []

/-- `StochasticLut::Save` (lines 277-281): both sub-layers, unconditionally. -/
def StochasticLutM.save {β δ ν π : Type} (m : StochasticLutM β δ ν π) : List ν :=
  m.lutSave ++ m.bnSave

/-- `StochasticLut::Load` (lines 283-287) as a stream consumer: the LUT
loader runs first, then the batch-norm loader, unconditionally. -/
def StochasticLutM.loadStream {β δ ν π : Type} (m : StochasticLutM β δ ν π)
    (stream : List ν) : List ν :=
  m.bnLoad (m.lutLoad stream)

/-- C10: `Save` and `Load` traverse both the LUT and the batch-normalization
sub-layer unconditionally — the serialized stream's structure is independent
of `bn_enable` — while `Forward`, `Backward`, `ForwardNode`, `GetParameters`
and `GetGradients` skip the batch-normalization sub-layer exactly when the
flag (set by the `batch_normalization` command) is cleared. -/
theorem C10_save_load_unconditional {β δ ν π : Type} :
    (∀ (m : StochasticLutM β δ ν π) (b : Bool),
      StochasticLutM.save {m with bn_enable := b} = m.lutSave ++ m.bnSave)
  ∧ (∀ (m : StochasticLutM β δ ν π) (b : Bool) (stream : List ν),
      StochasticLutM.loadStream {m with bn_enable := b} stream =
        m.bnLoad (m.lutLoad stream))
  ∧ (∀ (m : StochasticLutM β δ ν π) (x : β) (t : Bool) (dy : β) (v : δ),
      m.bn_enable = false →
        m.forward x t = m.lutForward x t ∧
        m.backward dy = m.lutBackward dy ∧
        m.forwardNode v = m.lutForwardNode v ∧
        m.getParameters = m.lutParams ∧
        m.getGradients = m.lutGrads)
  ∧ (∀ (m : StochasticLutM β δ ν π) (x : β) (t : Bool) (dy : β) (v : δ),
      m.bn_enable = true →
        m.forward x t = m.bnForward (m.lutForward x t) t ∧
        m.backward dy = m.lutBackward (m.bnBackward dy) ∧
        m.forwardNode v = m.bnForwardNode (m.lutForwardNode v) ∧
        m.getParameters = m.lutParams ++ m.bnParams ∧
        m.getGradients = m.lutGrads ++ m.bnGrads)
  ∧ (∀ (m : StochasticLutM β δ ν π) (b : Bool),
      (m.commandProc ["batch_normalization", if b then "1" else "0"]).bn_enable = b) := by
  refine ⟨?_, ?_, ?_, ?_, ?_⟩
  · intro m b
    rfl
  · intro m b stream
    rfl
  · intro m x t dy v hb
    refine ⟨?_, ?_, ?_, ?_, ?_⟩ <;>
      simp [StochasticLutM.forward, StochasticLutM.backward,
        StochasticLutM.forwardNode, StochasticLutM.getParameters,
        StochasticLutM.getGradients, hb]
  · intro m x t dy v hb
    refine ⟨?_, ?_, ?_, ?_, ?_⟩ <;>
      simp [StochasticLutM.forward, StochasticLutM.backward,
        StochasticLutM.forwardNode, StochasticLutM.getParameters,
        StochasticLutM.getGradients, hb]
  · intro m b
    cases b <;> rfl

/-- A concrete `StochasticLut` instance with batch-norm disabled, for the
claim witnesses. -/
def sampleSLut : StochasticLutM Nat Nat Nat Nat :=
  ⟨false, fun x _ => x + 1, fun x _ => 2 * x, fun d => d + 3, fun d => d + 4,
    fun v => v + 5, fun v => v + 6, [1], [2], [3], [4], [7], [8],
    fun s => s.drop 1, fun s => s.drop 1⟩

/-- C10 witness: with batch-norm disabled the bulk paths skip the batch-norm
sub-layer while `Save` still writes both payloads. -/
theorem C10_witness :
    sampleSLut.forward 10 true = 11 ∧
    sampleSLut.getParameters = [1] ∧
    StochasticLutM.save {sampleSLut with bn_enable := true} = [7, 8] ∧
    StochasticLutM.save {sampleSLut with bn_enable := false} = [7, 8] := by
  refine ⟨?_, ?_, ?_, ?_⟩
  · exact ((C10_save_load_unconditional.2.2.1 sampleSLut 10 true 0 0 rfl).1).trans rfl
  · exact ((C10_save_load_unconditional.2.2.1 sampleSLut 10 true 0 0 rfl).2.2.2.1).trans rfl
  · exact (C10_save_load_unconditional.1 sampleSLut true).trans rfl
  · exact (C10_save_load_unconditional.1 sampleSLut false).trans rfl

/-! ### SparseLutN (`SparseLutN.h`)

The composite chains {LUT, batch-norm, activation}.  Modelled from the spec:
the sub-layers (`StochasticLutN.h`, `StochasticBatchNormalization.h`,
`HardTanh.h`) are not among the sources; for a fixed input, fixed parameters
and fixed random state each is a deterministic forward map `f`, a backward
map `b` consuming the cached input buffer, and a cached-input slot `xbuf`
(`SetFrameBufferX(FrameBuffer())` clears it to `none`); `ReForward` re-runs
the forward map deterministically, re-caching its input, as the spec
requires bit-identical recomputation. -/

/-- A sub-layer of `SparseLutN`, abstracted. -/
structure SubLayer (β π : Type) where
  f : β → β
  b : Option β → β → β
  xbuf : Option β
  params : List π
  grads : List π

/-- Sub-layer `Forward`: caches the input when training. -/
def SubLayer.forward {β π : Type} (l : SubLayer β π) (x : β) (train : Bool) :
    SubLayer β π × β :=
  (if train then {l with xbuf := some x} else l, l.f x)

/-- Sub-layer `ReForward`: deterministic recomputation, re-caching the
input. -/
def SubLayer.reForward {β π : Type} (l : SubLayer β π) (x : β) :
    SubLayer β π × β :=
  ({l with xbuf := some x}, l.f x)

/-- Sub-layer `Backward`: consumes the cached input buffer. -/
def SubLayer.backward {β π : Type} (l : SubLayer β π) (dy : β) :
    SubLayer β π × β :=
  (l, l.b l.xbuf dy)

/-- The state of a `SparseLutN` composite. -/
structure SparseLutModel (β π : Type) where
  memory_saving : Bool
  lut : SubLayer β π
  batch_norm : SubLayer β π
  activation : SubLayer β π

/-- `SparseLutN::Forward` (`SparseLutN.h` lines 209-218): run the three
sub-layers in order; in memory-saving mode (or outside training) drop the
batch-norm and activation cached inputs right after their forward. -/
def sparseLutForward {β π : Type} (m : SparseLutModel β π) (x : β) (train : Bool) :
    SparseLutModel β π × β :=
  let p1 := m.lut.forward x train
  let p2 := m.batch_norm.forward p1.2 train
  let bn2 := if m.memory_saving || !train then {p2.1 with xbuf := none} else p2.1
  let p3 := m.activation.forward p2.2 train
  let act2 := if m.memory_saving || !train then {p3.1 with xbuf := none} else p3.1
  (⟨m.memory_saving, p1.1, bn2, act2⟩, p3.2)

/-- `SparseLutN::Backward` (`SparseLutN.h` lines 226-240): in memory-saving
mode first recompute the discarded intermediates by re-running forward from
the LUT's cached input, then propagate the gradient in reverse order. -/
def sparseLutBackward {β π : Type} (m : SparseLutModel β π) (dy : β) :
    SparseLutModel β π × β :=
  let m1 :=
    if m.memory_saving then
      match m.lut.xbuf with
      | some x0 =>
        let q1 := m.lut.reForward x0
        let q2 := m.batch_norm.reForward q1.2
        (⟨m.memory_saving, q1.1, q2.1, {m.activation with xbuf := some q2.2}⟩ :
          SparseLutModel β π)
      | none => m
    else m
  let r1 := m1.activation.backward dy
  let r2 := m1.batch_norm.backward r1.2
  let r3 := m1.lut.backward r2.2
  (⟨m1.memory_saving, r3.1, r2.1, r1.1⟩, r3.2)

/-- `SparseLutN::GetParameters` (lines 118-124): LUT then batch-norm,
unconditionally (the activation contributes none). -/
def sparseLutGetParameters {β π : Type} (m : SparseLutModel β π) : List π :=
  m.lut.params ++ m.batch_norm.params

/-- `SparseLutN::GetGradients` (lines 132-138). -/
def sparseLutGetGradients {β π : Type} (m : SparseLutModel β π) : List π :=
  m.lut.grads ++ m.batch_norm.grads

/-- C2: for fixed sub-layer maps (fixed input, parameters and random state),
a training Forward followed by Backward yields the same output and the same
input gradient with memory saving enabled as with it disabled (exact
equality in the model, which abstracts the float arithmetic); the
memory-saving Backward first recomputes the discarded intermediate from the
LUT's cached input — restoring the activation's cached input to the
batch-norm output of the original forward — before the reverse gradient
sweep. -/
theorem C2_checkpoint_recompute_equivalence {β π : Type} :
    ∀ (lut bn act : SubLayer β π) (x dy : β),
      ((sparseLutBackward (sparseLutForward ⟨true, lut, bn, act⟩ x true).1 dy).2 =
        (sparseLutBackward (sparseLutForward ⟨false, lut, bn, act⟩ x true).1 dy).2)
    ∧ ((sparseLutForward ⟨true, lut, bn, act⟩ x true).2 =
        (sparseLutForward ⟨false, lut, bn, act⟩ x true).2)
    ∧ ((sparseLutBackward (sparseLutForward ⟨true, lut, bn, act⟩ x true).1 dy).1.activation.xbuf
        = some (bn.f (lut.f x)))
    ∧ ((sparseLutBackward (sparseLutForward ⟨true, lut, bn, act⟩ x true).1 dy).2 =
        lut.b (some x) (bn.b (some (lut.f x)) (act.b (some (bn.f (lut.f x))) dy))) := by
  intro lut bn act x dy
  exact ⟨rfl, rfl, rfl, rfl⟩

/-! ### BinaryModulation (`BinaryModulation.h`)

Modelled from the spec: `RealToBinary.h` / `BinaryToReal.h` are not among
the sources.  The expander's configuration record carries the modulation
size, the pluggable value generator (an opaque value of type `V`), the
framewise flag and the input value range (of type `R`), exactly the fields
of `RealToBinary::create_t` that `BinaryModulation` stores per mode; its
`SetModulationSize` / `SetValueGenerator` setters update just those fields.
The expander turns `f` frames into `f * modulation_size` frames and the
reducer divides by its modulation size. -/

/-- The configuration of a `RealToBinary` expander (`RealToBinary::create_t`). -/
structure R2BConfig (V R : Type) where
  modulation_size : Nat
  value_generator : V
  framewise : Bool
  input_range_lo : R
  input_range_hi : R
deriving Repr, DecidableEq

/-- The state of a `BinaryModulation` composite: the expander configuration,
the reducer's modulation size, the mode flag, the two stored parameter sets,
and the children's parameter/gradient collections. -/
structure BMState (V R π : Type) where
  r2b : R2BConfig V R
  b2r_modulation : Nat
  training : Bool
  training_create : R2BConfig V R
  inference_create : R2BConfig V R
  r2bParams : List π
  layerParams : List π
  b2rParams : List π
  r2bGrads : List π
  layerGrads : List π
  b2rGrads : List π

/-- The `BinaryModulation` constructor (`BinaryModulation.h` lines 59-77):
store both parameter sets, create the expander from the full training
configuration, mark the instance as configured for training and give the
reducer the training modulation size. -/
def bmCreate {V R π : Type} (tc ic : R2BConfig V R)
    (r2bP layerP b2rP r2bG layerG b2rG : List π) : BMState V R π :=
  ⟨tc, tc.modulation_size, true, tc, ic, r2bP, layerP, b2rP, r2bG, layerG, b2rG⟩

/-- The mode-switch block of `BinaryModulation::Forward` (lines 185-199): on
a mismatch between `train` and the stored flag, update the expander's
modulation size and value generator and the reducer's modulation size from
the matching stored parameter set — nothing else — and flip the flag. -/
def bmSwitch {V R π : Type} (s : BMState V R π) (train : Bool) : BMState V R π :=
  if train && !s.training then
    {s with
      r2b := {s.r2b with
        modulation_size := s.training_create.modulation_size,
        value_generator := s.training_create.value_generator},
      b2r_modulation := s.training_create.modulation_size,
      training := true}
  else if !train && s.training then
    {s with
      r2b := {s.r2b with
        modulation_size := s.inference_create.modulation_size,
        value_generator := s.inference_create.value_generator},
      b2r_modulation := s.inference_create.modulation_size,
      training := false}
  else s

/-- The frame-count behaviour of `BinaryModulation::Forward` (lines
185-205): switch, then expander (frames times modulation size), wrapped
layer (`g` on frames), reducer (divide by its modulation size). -/
def bmForwardFrames {V R π : Type} (s : BMState V R π) (g : Nat → Nat)
    (f : Nat) (train : Bool) : BMState V R π × Nat :=
  let s1 := bmSwitch s train
  (s1, g (f * s1.r2b.modulation_size) / s1.b2r_modulation)

/-- `BinaryModulation::GetParameters` (lines 115-122): expander, wrapped
layer, reducer, in order. -/
def bmGetParameters {V R π : Type} (s : BMState V R π) : List π :=
  s.r2bParams ++ s.layerParams ++ s.b2rParams

/-- `BinaryModulation::GetGradients` (lines 130-137). -/
def bmGetGradients {V R π : Type} (s : BMState V R π) : List π :=
  s.r2bGrads ++ s.layerGrads ++ s.b2rGrads

/-- C3 counterexample: the claim says a mismatched Forward reconfigures the
expander to the full matching parameter set (modulation size, value
generator, framewise flag, input range), but the switch copies only the
modulation size and value generator: with a training configuration
`⟨3, 1, framewise, 0, 1⟩` and inference configuration `⟨7, 2, per-element,
0, 2⟩`, the first inference-mode Forward leaves the expander at
`⟨7, 2, framewise, 0, 1⟩`, not the inference parameter set. -/
theorem C3_counterexample :
    (bmSwitch (bmCreate (V := Nat) (R := Int) (π := Nat)
        ⟨3, 1, true, 0, 1⟩ ⟨7, 2, false, 0, 2⟩ [] [] [] [] [] []) false).r2b =
      (⟨7, 2, true, 0, 1⟩ : R2BConfig Nat Int) ∧
    (⟨7, 2, true, 0, 1⟩ : R2BConfig Nat Int) ≠ ⟨7, 2, false, 0, 2⟩ := by
  exact ⟨rfl, by decide⟩

/-- C3 (amended): the constructor configures the expander from the full
training parameter set; a Forward whose `isTraining` flag differs from the
stored flag updates, before running, the expander's modulation size and
value generator and the reducer's modulation size to the matching parameter
set and flips the flag, while the expander's framewise flag and input value
range keep their previous values; the expander then emits `frames *
modulation_size` frames and the reducer is configured with that same
modulation size. -/
theorem C3_mode_switch_reconfigures {V R π : Type} :
    (∀ (tc ic : R2BConfig V R) (p₁ p₂ p₃ g₁ g₂ g₃ : List π),
      (bmCreate tc ic p₁ p₂ p₃ g₁ g₂ g₃).r2b = tc ∧
      (bmCreate tc ic p₁ p₂ p₃ g₁ g₂ g₃).training = true ∧
      (bmCreate tc ic p₁ p₂ p₃ g₁ g₂ g₃).b2r_modulation = tc.modulation_size)
  ∧ (∀ (s : BMState V R π) (train : Bool), train ≠ s.training →
      (bmSwitch s train).r2b.modulation_size =
        (if train then s.training_create else s.inference_create).modulation_size ∧
      (bmSwitch s train).r2b.value_generator =
        (if train then s.training_create else s.inference_create).value_generator ∧
      (bmSwitch s train).b2r_modulation =
        (if train then s.training_create else s.inference_create).modulation_size ∧
      (bmSwitch s train).training = train ∧
      (bmSwitch s train).r2b.framewise = s.r2b.framewise ∧
      (bmSwitch s train).r2b.input_range_lo = s.r2b.input_range_lo ∧
      (bmSwitch s train).r2b.input_range_hi = s.r2b.input_range_hi)
  ∧ (∀ (s : BMState V R π) (g : Nat → Nat) (f : Nat) (train : Bool),
      (bmForwardFrames s g f train).2 =
        g (f * (bmSwitch s train).r2b.modulation_size) /
          (bmSwitch s train).b2r_modulation ∧
      (train ≠ s.training →
        (bmSwitch s train).b2r_modulation = (bmSwitch s train).r2b.modulation_size)) := by
  refine ⟨?_, ?_, ?_⟩
  · intro tc ic p₁ p₂ p₃ g₁ g₂ g₃
    exact ⟨rfl, rfl, rfl⟩
  · intro s train hne
    cases train with
    | true =>
      cases hst : s.training with
      | true => exact absurd hst.symm hne
      | false =>
        refine ⟨?_, ?_, ?_, ?_, ?_, ?_, ?_⟩ <;> simp [bmSwitch, hst]
    | false =>
      cases hst : s.training with
      | false => exact absurd hst.symm hne
      | true =>
        refine ⟨?_, ?_, ?_, ?_, ?_, ?_, ?_⟩ <;> simp [bmSwitch, hst]
  · intro s g f train
    refine ⟨rfl, ?_⟩
    intro hne
    cases train with
    | true =>
      cases hst : s.training with
      | true => exact absurd hst.symm hne
      | false => simp [bmSwitch, hst]
    | false =>
      cases hst : s.training with
      | false => exact absurd hst.symm hne
      | true => simp [bmSwitch, hst]

/-- A concrete `BinaryModulation` instance for the claim witnesses, built
with distinct training and inference parameter sets. -/
def sampleBM : BMState Nat Int Nat :=
  bmCreate ⟨3, 1, true, 0, 1⟩ ⟨7, 2, false, 0, 2⟩ [] [] [] [] [] []

/-- C3 witness: the amended switch behaviour at the concrete instance — the
first inference Forward sets modulation size 7 and value generator 2, keeps
the training framewise flag and range, and flips the mode flag. -/
theorem C3_witness :
    (bmSwitch sampleBM false).r2b.modulation_size = 7 ∧
    (bmSwitch sampleBM false).r2b.value_generator = 2 ∧
    (bmSwitch sampleBM false).b2r_modulation = 7 ∧
    (bmSwitch sampleBM false).training = false ∧
    (bmSwitch sampleBM false).r2b.framewise = true := by
  have h := C3_mode_switch_reconfigures.2.1 sampleBM false (by decide)
  exact ⟨h.1.trans rfl, h.2.1.trans rfl, h.2.2.1.trans rfl, h.2.2.2.1,
    h.2.2.2.2.1.trans rfl⟩

/-- C6: parameter and gradient collections have identical structure for each
composite — `StochasticLut` includes the batch-norm entries in both exactly
when `bn_enable` is set, `SparseLutN` always collects LUT then batch-norm in
both, and `BinaryModulation` always collects expander, wrapped layer and
reducer in both — so when each child's parameter and gradient lists have
matching lengths, the two collections are positionally zippable. -/
theorem C6_parameters_gradients_aligned {β δ ν π V R : Type} :
    (∀ (m : StochasticLutM β δ ν π),
      m.lutParams.length = m.lutGrads.length →
      m.bnParams.length = m.bnGrads.length →
      m.getParameters.length = m.getGradients.length)
  ∧ (∀ (m : StochasticLutM β δ ν π),
      (m.bn_enable = true →
        m.getParameters = m.lutParams ++ m.bnParams ∧
        m.getGradients = m.lutGrads ++ m.bnGrads) ∧
      (m.bn_enable = false →
        m.getParameters = m.lutParams ∧ m.getGradients = m.lutGrads))
  ∧ (∀ (m : SparseLutModel β π),
      m.lut.params.length = m.lut.grads.length →
      m.batch_norm.params.length = m.batch_norm.grads.length →
      (sparseLutGetParameters m).length = (sparseLutGetGradients m).length)
  ∧ (∀ (s : BMState V R π),
      s.r2bParams.length = s.r2bGrads.length →
      s.layerParams.length = s.layerGrads.length →
      s.b2rParams.length = s.b2rGrads.length →
      (bmGetParameters s).length = (bmGetGradients s).length) := by
  refine ⟨?_, ?_, ?_, ?_⟩
  · intro m h1 h2
    by_cases hb : m.bn_enable <;>
      simp [StochasticLutM.getParameters, StochasticLutM.getGradients, hb, h1, h2]
  · intro m
    constructor
    · intro hb
      constructor <;>
        simp [StochasticLutM.getParameters, StochasticLutM.getGradients, hb]
    · intro hb
      constructor <;>
        simp [StochasticLutM.getParameters, StochasticLutM.getGradients, hb]
  · intro m h1 h2
    simp [sparseLutGetParameters, sparseLutGetGradients, h1, h2]
  · intro s h1 h2 h3
    simp [bmGetParameters, bmGetGradients, h1, h2, h3]

/-- C6 witness: the alignment at concrete instances — the disabled
batch-norm drops out of both collections of `sampleSLut`, and the composite
collections of a concrete `SparseLutN` and `BinaryModulation` zip
positionally. -/
theorem C6_witness :
    sampleSLut.getParameters.length = sampleSLut.getGradients.length ∧
    (sparseLutGetParameters
        (⟨true, ⟨fun x => x, fun _ d => d, none, [1, 2], [3, 4]⟩,
          ⟨fun x => x, fun _ d => d, none, [5], [6]⟩,
          ⟨fun x => x, fun _ d => d, none, [], []⟩⟩ : SparseLutModel Nat Nat)).length =
      (sparseLutGetGradients
        (⟨true, ⟨fun x => x, fun _ d => d, none, [1, 2], [3, 4]⟩,
          ⟨fun x => x, fun _ d => d, none, [5], [6]⟩,
          ⟨fun x => x, fun _ d => d, none, [], []⟩⟩ : SparseLutModel Nat Nat)).length ∧
    (bmGetParameters sampleBM).length = (bmGetGradients sampleBM).length := by
  refine ⟨?_, ?_, ?_⟩
  · exact (C6_parameters_gradients_aligned (β := Nat) (δ := Nat) (ν := Nat)
      (π := Nat) (V := Nat) (R := Int)).1 sampleSLut rfl rfl
  · exact (C6_parameters_gradients_aligned (β := Nat) (δ := Nat) (ν := Nat)
      (π := Nat) (V := Nat) (R := Int)).2.2.1 _ rfl rfl
  · exact (C6_parameters_gradients_aligned (β := Nat) (δ := Nat) (ν := Nat)
      (π := Nat) (V := Nat) (R := Int)).2.2.2 sampleBM rfl rfl rfl

end BinaryBrain
